import Mathlib

/-
Verification of the two developer-tooling scripts in this repository:
the module-dependency graph builder with its transitive reducer
(src/deps/modules_to_dot.py) and the JET diagnostic-stream filter
(src/deps/jet.py).  Python strings are modelled as Lean Strings (graph
part, where only equality of names matters) or as lists of characters
(text processing), Python dicts as association lists in insertion
order, and uncaught Python exceptions as the value none of an Option.
-/

set_option maxRecDepth 10000

namespace TanayDeps

/-- Generic association-list lookup, modelling a Python dict read
(dicts have unique keys; on duplicates this takes the first entry). -/
def alookup {α β : Type} [DecidableEq α] (k : α) : List (α × β) → Option β
  | [] => none
  | p :: rest => if p.1 = k then some p.2 else alookup k rest

/-- Generic association-list value update, modelling assignment
d[k] = v to an existing key of a Python dict (keeps insertion order). -/
def updateA {α β : Type} [DecidableEq α] : List (α × β) → α → β → List (α × β)
  | [], _, _ => []
  | p :: rest, k, v => (if p.1 = k then (k, v) else p) :: updateA rest k v

/-- The module registry deps_of of modules_to_dot.py: module name to the
list of its recorded direct dependencies (Python uses a set; only
membership and existence matter to the reducer, so a list suffices). -/
abbrev Registry := List (String × List String)

/-- The inner loop of is_reachable (modules_to_dot.py lines 37-51):
iterate over the recorded dependencies of the current module; a
dependency equal to dep found with a non-empty traversed path signals an
indirect path (the direct edge, at empty path, is skipped); otherwise
recurse via f.  none models an uncaught Python exception. -/
def runLoop (dep : String) (pathEmpty : Bool) (f : String → Option Bool) :
    List String → Option Bool
  | [] => some false
  | d :: rest =>
    if d = dep then
      if pathEmpty then runLoop dep pathEmpty f rest else some true
    else
      match f d with
      | none => none
      | some true => some true
      | some false => runLoop dep pathEmpty f rest

/-- is_reachable of modules_to_dot.py (lines 28-54).  The fuel argument
only serves Lean's termination; the Python recursion is bounded by the
number of registry keys plus one because the path is duplicate-free
(cycle guard) and only holds keys, so callers pass reg.length + 1 which
is never exhausted.  none models an uncaught KeyError: deps_of[mod] is
indexed without a guard. -/
def isReachable (reg : Registry) (dep : String) :
    Nat → String → List String → Option Bool
  | 0, _, _ => none
  | fuel + 1, mod, path =>
    if mod ∈ path then some false
    else
      match alookup mod reg with
      | none => none
      | some deps =>
        runLoop dep path.isEmpty
          (fun d => isReachable reg dep fuel d (path ++ [mod])) deps

/-- The set comprehension of the reduction loop (line 64): keep exactly
the dependencies not indirectly reachable; any KeyError inside a
reachability check aborts the whole pass (Python evaluates every
element of the comprehension unless an exception escapes). -/
def filterDeps (reg : Registry) (mod : String) (fuel : Nat) :
    List String → Option (List String)
  | [] => some []
  | d :: rest =>
    match isReachable reg d fuel mod [] with
    | none => none
    | some true => filterDeps reg mod fuel rest
    | some false =>
      match filterDeps reg mod fuel rest with
      | none => none
      | some kept => some (d :: kept)

/-- One iteration of the reduction loop (lines 56-64): replace the
dependency set of mod by its reduced set, consulting the current
(partially reduced) registry.  When visited, a key still holds its
original value because each key is updated exactly at its own visit. -/
def reduceStep (fuel : Nat) (reg : Registry) (mod : String) : Option Registry :=
  match alookup mod reg with
  | none => some reg
  | some deps =>
    match filterDeps reg mod fuel deps with
    | none => none
    | some kept => some (updateA reg mod kept)

/-- The keys of the registry in insertion order (dict iteration order). -/
def regKeys (reg : Registry) : List String := reg.map Prod.fst

/-- Fold of the reduction loop over the keys, threading the mutated
registry (deps_of is mutated in place, module by module). -/
def reduceFold (fuel : Nat) : List String → Registry → Option Registry
  | [], s => some s
  | k :: ks, s =>
    match reduceStep fuel s k with
    | none => none
    | some s2 => reduceFold fuel ks s2

/-- The whole transitive-reduction pass of modules_to_dot.py. -/
def reduceAll (reg : Registry) : Option Registry :=
  reduceFold (reg.length + 1) (regKeys reg) reg

/-- dep is a recorded direct dependency of m, i.e. the graph has the
edge dep -> m. -/
def edgeIn (reg : Registry) (d m : String) : Prop :=
  d ∈ (alookup m reg).getD []

instance (reg : Registry) (d m : String) : Decidable (edgeIn reg d m) :=
  inferInstanceAs (Decidable (d ∈ (alookup m reg).getD []))

/-- pathBack reg dep m vs: the graph has a path from dep to m whose
intermediate nodes, read from m backwards, are vs; so
pathBack reg dep m (w :: ws) means edge w -> m and a path dep to w with
intermediates ws, and pathBack reg dep m [] is the direct edge. -/
def pathBack (reg : Registry) (dep : String) : String → List String → Prop
  | m, [] => edgeIn reg dep m
  | m, w :: ws => edgeIn reg w m ∧ pathBack reg dep w ws

/-- An alternate path from dep to mod of length at least 2 (at least one
intermediate node) through recorded edges, visiting no node twice. -/
def IndirectPath (reg : Registry) (dep mod : String) : Prop :=
  ∃ vs, vs ≠ [] ∧ pathBack reg dep mod vs ∧ (mod :: vs ++ [dep]).Nodup

/-- The triangle registry of the first half of claim C1: edges
A -> B, B -> C, A -> C; all three modules declared. -/
def regTriangle : Registry := [("A", []), ("B", ["A"]), ("C", ["A", "B"])]

/-- The expected reduction of regTriangle: the redundant A -> C edge is
dropped, A -> B and B -> C are retained. -/
def regTriangleReduced : Registry := [("A", []), ("B", ["A"]), ("C", ["B"])]

/-- The pure two-cycle registry of the second half of claim C1:
edges A -> B and B -> A only. -/
def regCycle : Registry := [("A", ["B"]), ("B", ["A"])]

/-- C1: on the triangle registry (edges A -> B, B -> C, A -> C) the
transitive reducer retains A -> B and B -> C and drops A -> C; and on
the pure two-cycle A -> B -> A it retains both edges. -/
theorem c1_reduction_examples :
    reduceAll regTriangle = some regTriangleReduced ∧
    reduceAll regCycle = some regCycle := by
  constructor <;> rfl

/-- A registry with a single module whose sole recorded dependency X is
not itself a declared module. -/
def regSolo : Registry := [("A", ["X"])]

/-- A registry where module A records dependencies B (declared) and C
(undeclared): checking B recurses into C and hits the missing key. -/
def regBad : Registry := [("A", ["B", "C"]), ("B", [])]

/-- C10, counterexample: the claim says the reduction pass raises an
uncaught key-lookup error for ANY registry in which some recorded
dependency is not a declared module.  regSolo is such a registry (X is
a recorded dependency of A and not a key), yet the pass completes and
retains the unknown edge: the search skips the direct edge at empty
path and never indexes deps_of with X. -/
theorem c10_counterexample :
    reduceAll regSolo = some regSolo ∧
    edgeIn regSolo ("X") ("A") ∧
    alookup ("X") regSolo = none := by
  refine ⟨rfl, by decide, rfl⟩

theorem alookup_eq_some_mem {α β : Type} [DecidableEq α] {k : α}
    {l : List (α × β)} {v : β} (h : alookup k l = some v) :
    k ∈ l.map Prod.fst := by
  induction l with
  | nil => simp [alookup] at h
  | cons p rest ih =>
    by_cases hp : p.1 = k
    · simp [hp]
    · simp only [alookup, if_neg hp] at h
      simp [ih h]

theorem alookup_updateA_self {α β : Type} [DecidableEq α] (l : List (α × β))
    (k : α) (v : β) :
    alookup k (updateA l k v) = (alookup k l).map (fun _ => v) := by
  induction l with
  | nil => rfl
  | cons p rest ih =>
    by_cases hp : p.1 = k
    · simp [updateA, alookup, hp]
    · simp [updateA, alookup, hp, ih]

theorem alookup_updateA_ne {α β : Type} [DecidableEq α] (l : List (α × β))
    {k m : α} (v : β) (h : m ≠ k) :
    alookup m (updateA l k v) = alookup m l := by
  induction l with
  | nil => rfl
  | cons p rest ih =>
    by_cases hp : p.1 = k
    · have hk : ¬(k = m) := fun hkm => h hkm.symm
      have hpm : ¬(p.1 = m) := by rw [hp]; exact hk
      simp [updateA, alookup, hp, hk, hpm, ih]
    · by_cases hm : p.1 = m
      · simp [updateA, alookup, hp, hm, h]
      · simp [updateA, alookup, hp, hm, ih]

theorem keys_updateA {α β : Type} [DecidableEq α] (l : List (α × β))
    (k : α) (v : β) :
    (updateA l k v).map Prod.fst = l.map Prod.fst := by
  induction l with
  | nil => rfl
  | cons p rest ih =>
    by_cases hp : p.1 = k
    · simp [updateA, hp, ih]
    · simp [updateA, hp, ih]

theorem filterDeps_mem {reg : Registry} {mod : String} {fuel : Nat} :
    ∀ {ds kept : List String}, filterDeps reg mod fuel ds = some kept →
      ∀ {d : String}, d ∈ kept →
        d ∈ ds ∧ isReachable reg d fuel mod [] = some false := by
  intro ds
  induction ds with
  | nil =>
    intro kept h d hd
    simp only [filterDeps] at h
    cases h
    simp at hd
  | cons d0 rest ih =>
    intro kept h d hd
    simp only [filterDeps] at h
    cases hr : isReachable reg d0 fuel mod [] with
    | none => rw [hr] at h; cases h
    | some b =>
      rw [hr] at h
      cases b with
      | true =>
        have := ih h hd
        exact ⟨List.mem_cons_of_mem _ this.1, this.2⟩
      | false =>
        cases hrest : filterDeps reg mod fuel rest with
        | none => rw [hrest] at h; cases h
        | some kept0 =>
          rw [hrest] at h
          cases h
          rcases List.mem_cons.mp hd with hdd | hdk
          · subst hdd; exact ⟨List.mem_cons_self _ _, hr⟩
          · have := ih hrest hdk
            exact ⟨List.mem_cons_of_mem _ this.1, this.2⟩

theorem reduceStep_keys {fuel : Nat} {s s2 : Registry} {k : String}
    (h : reduceStep fuel s k = some s2) : regKeys s2 = regKeys s := by
  unfold reduceStep at h
  split at h
  · cases h; rfl
  · split at h
    · cases h
    · rename_i kept _
      cases h
      exact keys_updateA s k kept

theorem reduceStep_edge_sub {fuel : Nat} {s s2 : Registry} {k : String}
    (h : reduceStep fuel s k = some s2) :
    ∀ d m, edgeIn s2 d m → edgeIn s d m := by
  intro d m he
  unfold reduceStep at h
  split at h
  · cases h; exact he
  · rename_i deps halk
    split at h
    · cases h
    · rename_i kept hf
      cases h
      by_cases hm : m = k
      · subst hm
        unfold edgeIn at he ⊢
        rw [alookup_updateA_self, halk] at he
        simp only [Option.map_some'] at he
        rw [halk]
        exact (filterDeps_mem hf he).1
      · unfold edgeIn at he ⊢
        rwa [alookup_updateA_ne _ _ hm] at he

theorem reduceStep_checked {fuel : Nat} {s s2 : Registry} {k : String}
    (h : reduceStep fuel s k = some s2) :
    ∀ d, edgeIn s2 d k → isReachable s d fuel k [] = some false := by
  intro d he
  unfold reduceStep at h
  split at h
  · rename_i halk
    cases h
    unfold edgeIn at he
    rw [halk] at he
    simp at he
  · rename_i deps halk
    split at h
    · cases h
    · rename_i kept hf
      cases h
      unfold edgeIn at he
      rw [alookup_updateA_self, halk] at he
      simp only [Option.map_some'] at he
      exact (filterDeps_mem hf he).2

theorem pathBack_mono {s s2 : Registry}
    (hsub : ∀ d m, edgeIn s2 d m → edgeIn s d m) {dep : String} :
    ∀ (vs : List String) (m : String),
      pathBack s2 dep m vs → pathBack s dep m vs := by
  intro vs
  induction vs with
  | nil => intro m h; exact hsub _ _ h
  | cons w ws ih =>
    intro m h
    exact ⟨hsub _ _ h.1, ih w h.2⟩

theorem runLoop_eq_false {dep : String} {pe : Bool} {f : String → Option Bool} :
    ∀ {ds : List String}, runLoop dep pe f ds = some false →
      ∀ d ∈ ds, (d = dep → pe = true) ∧ (d ≠ dep → f d = some false) := by
  intro ds
  induction ds with
  | nil => intro _ d hd; simp at hd
  | cons d0 rest ih =>
    intro h d hd
    simp only [runLoop] at h
    by_cases h0 : d0 = dep
    · rw [if_pos h0] at h
      cases pe with
      | false => simp at h
      | true =>
        simp only [if_pos rfl] at h
        rcases List.mem_cons.mp hd with hdd | hdr
        · subst hdd
          exact ⟨fun _ => rfl, fun hne => absurd h0 hne⟩
        · exact ih h d hdr
    · rw [if_neg h0] at h
      cases hf : f d0 with
      | none => rw [hf] at h; cases h
      | some b =>
        rw [hf] at h
        cases b with
        | true => cases h
        | false =>
          rcases List.mem_cons.mp hd with hdd | hdr
          · subst hdd
            exact ⟨fun heq => absurd heq h0, fun _ => hf⟩
          · exact ih h d hdr

/-- Completeness of the reachability search: if is_reachable reported
false, no duplicate-free path from dep to mod with at least one
intermediate node (all intermediates off the current search path)
exists in the registry. -/
theorem isReachable_false_no_path {reg : Registry} {dep : String} :
    ∀ (vs : List String) (fuel : Nat) (mod : String) (path : List String),
      isReachable reg dep fuel mod path = some false →
      vs ≠ [] →
      pathBack reg dep mod vs →
      (mod :: vs).Nodup →
      dep ∉ mod :: vs →
      mod ∉ path →
      (∀ v ∈ vs, v ∉ path) → False := by
  intro vs
  induction vs with
  | nil => intro fuel mod path _ hne _ _ _ _ _; exact hne rfl
  | cons w ws ih =>
    intro fuel mod path hfalse _ hpb hnd hdep hmp hvp
    cases fuel with
    | zero => simp [isReachable] at hfalse
    | succ fu =>
      simp only [isReachable, if_neg hmp] at hfalse
      cases halk : alookup mod reg with
      | none => rw [halk] at hfalse; cases hfalse
      | some deps =>
        rw [halk] at hfalse
        have hw : w ∈ deps := by
          have h1 := hpb.1
          unfold edgeIn at h1
          rw [halk] at h1
          simpa using h1
        have hwdep : w ≠ dep := by
          intro hwe
          exact hdep (hwe ▸ List.mem_cons_of_mem _ (List.mem_cons_self w ws))
        have hrec :
            isReachable reg dep fu w (path ++ [mod]) = some false :=
          (runLoop_eq_false hfalse w hw).2 hwdep
        have hwmod : w ≠ mod := by
          simp only [List.nodup_cons] at hnd
          intro hwm
          exact hnd.1 (List.mem_cons.mpr (Or.inl hwm.symm))
        have hwpath : w ∉ path ++ [mod] := by
          intro hmem
          rcases List.mem_append.mp hmem with hp | hm
          · exact hvp w (List.mem_cons_self _ _) hp
          · exact hwmod (List.mem_singleton.mp hm)
        cases ws with
        | nil =>
          have hdw : edgeIn reg dep w := hpb.2
          cases fu with
          | zero => simp [isReachable] at hrec
          | succ fu2 =>
            simp only [isReachable, if_neg hwpath] at hrec
            cases halk2 : alookup w reg with
            | none =>
              unfold edgeIn at hdw
              rw [halk2] at hdw
              simp at hdw
            | some deps2 =>
              rw [halk2] at hrec
              have hdmem : dep ∈ deps2 := by
                have := hdw
                unfold edgeIn at this
                rwa [halk2] at this
              have := (runLoop_eq_false hrec dep hdmem).1 rfl
              simp at this
        | cons w2 ws' =>
          apply ih fu w (path ++ [mod]) hrec (by simp) hpb.2
          · simp only [List.nodup_cons] at hnd ⊢
            exact hnd.2
          · intro hmem
            exact hdep (List.mem_cons_of_mem _ hmem)
          · exact hwpath
          · intro v hv hmem
            rcases List.mem_append.mp hmem with hp | hm
            · exact hvp v (List.mem_cons_of_mem _ hv) hp
            · have hveq : v = mod := List.mem_singleton.mp hm
              simp only [List.nodup_cons] at hnd
              exact hnd.1 (hveq ▸ List.mem_cons_of_mem _ hv)

/-- The reduction invariant for a set P of already-processed modules:
every retained edge into a module of P admits no alternate
duplicate-free path of length at least 2. -/
def GoodFor (s : Registry) (P : List String) : Prop :=
  ∀ m ∈ P, ∀ d, edgeIn s d m → ¬ IndirectPath s d m

theorem reduceFold_keys {fuel : Nat} :
    ∀ (ks : List String) (s final : Registry),
      reduceFold fuel ks s = some final → regKeys final = regKeys s := by
  intro ks
  induction ks with
  | nil => intro s final h; cases h; rfl
  | cons k ks' ih =>
    intro s final h
    simp only [reduceFold] at h
    cases hstep : reduceStep fuel s k with
    | none => rw [hstep] at h; cases h
    | some s2 =>
      rw [hstep] at h
      rw [ih s2 final h, reduceStep_keys hstep]

theorem reduceFold_good (fuel : Nat) :
    ∀ (ks P : List String) (s final : Registry),
      reduceFold fuel ks s = some final →
      GoodFor s P → (∀ k ∈ ks, k ∉ P) → ks.Nodup →
      GoodFor final (P ++ ks) := by
  intro ks
  induction ks with
  | nil =>
    intro P s final h hg _ _
    cases h
    simpa using hg
  | cons k ks' ih =>
    intro P s final h hg hdisj hnd
    simp only [reduceFold] at h
    cases hstep : reduceStep fuel s k with
    | none => rw [hstep] at h; cases h
    | some s2 =>
      rw [hstep] at h
      have hsub := reduceStep_edge_sub hstep
      have hg2 : GoodFor s2 (P ++ [k]) := by
        intro m hm d hedge hip
        rcases List.mem_append.mp hm with hmP | hmk
        · rcases hip with ⟨vs, hne, hpb, hnod⟩
          exact hg m hmP d (hsub _ _ hedge)
            ⟨vs, hne, pathBack_mono hsub vs m hpb, hnod⟩
        · have hmk' := List.mem_singleton.mp hmk
          subst hmk'
          have hchk := reduceStep_checked hstep d hedge
          rcases hip with ⟨vs, hne, hpb, hnod⟩
          have hpb_s := pathBack_mono hsub vs m hpb
          have hnod' : ((m :: vs) ++ [d]).Nodup := by
            simpa using hnod
          have hnods : (m :: vs).Nodup := hnod'.of_append_left
          have hdnot : d ∉ m :: vs := by
            intro hdm
            rcases List.nodup_append.mp hnod' with ⟨_, _, hdisj2⟩
            exact hdisj2 hdm (List.mem_singleton.mpr rfl)
          exact isReachable_false_no_path vs fuel m [] hchk hne hpb_s
            hnods hdnot (List.not_mem_nil m) (fun v _ => List.not_mem_nil v)
      have hdisj' : ∀ k' ∈ ks', k' ∉ P ++ [k] := by
        intro k' hk' hmem
        rcases List.mem_append.mp hmem with hP | hkk
        · exact hdisj k' (List.mem_cons_of_mem _ hk') hP
        · have := List.mem_singleton.mp hkk
          subst this
          simp only [List.nodup_cons] at hnd
          exact hnd.1 hk'
      have := ih (P ++ [k]) s2 final h hg2 hdisj'
        (by simp only [List.nodup_cons] at hnd; exact hnd.2)
      simpa using this

/-- C2: after the in-place transitive-reduction pass completes, every
retained dependency edge dep -> mod admits no alternate duplicate-free
path from dep to mod of length at least 2 through the post-reduction
edges.  The registry has unique module names, as a Python dict does. -/
theorem c2_reduction_invariant (reg final : Registry)
    (hkeys : (regKeys reg).Nodup)
    (hred : reduceAll reg = some final) :
    ∀ mod dep, edgeIn final dep mod → ¬ IndirectPath final dep mod := by
  have hgood := reduceFold_good (reg.length + 1) (regKeys reg) []
    reg final hred (fun m hm => absurd hm (List.not_mem_nil m))
    (fun k _ => List.not_mem_nil k) hkeys
  intro mod dep hedge
  have hmem : mod ∈ regKeys final := by
    unfold edgeIn at hedge
    cases halk : alookup mod final with
    | none => rw [halk] at hedge; simp at hedge
    | some v => exact alookup_eq_some_mem halk
  have hmem' : mod ∈ ([] : List String) ++ regKeys reg := by
    rw [← reduceFold_keys (regKeys reg) reg final hred]
    simpa using hmem
  exact hgood mod hmem' dep hedge

/-- Witness for C2 at the concrete triangle registry: the retained edge
B -> C of the reduced registry has no alternate path. -/
theorem c2_reduction_invariant_witness :
    (regKeys regTriangle).Nodup ∧
    reduceAll regTriangle = some regTriangleReduced ∧
    edgeIn regTriangleReduced ("B") ("C") ∧
    ¬ IndirectPath regTriangleReduced ("B") ("C") :=
  ⟨by decide, rfl, by decide,
    c2_reduction_invariant regTriangle regTriangleReduced (by decide) rfl
      ("C") ("B") (by decide)⟩

/-- C10, amended: the reduction pass raises an uncaught key-lookup
error exactly when the reachability search recurses into an undeclared
dependency name, as in regBad where checking dependency B of A recurses
into the undeclared fellow dependency C; an undeclared dependency that
the search never recurses into, such as the sole dependency of its
module in regSolo, is retained without error. -/
theorem c10_amended :
    reduceAll regBad = none ∧
    alookup ("C") regBad = none ∧
    reduceAll regSolo = some regSolo := by
  refine ⟨rfl, rfl, rfl⟩

end TanayDeps

namespace TanayText

/-- Python strings, modelled as lists of characters. -/
abbrev Str := List Char

/-- The space character (written via its code point to keep character
literals simple). -/
def spc : Char := Char.ofNat 32

/-- Python substring containment: needle in hay. -/
def inStr (needle : Str) : Str → Bool
  | [] => needle.isEmpty
  | c :: rest => needle.isPrefixOf (c :: rest) || inStr needle rest

/-- Earliest occurrence of sep inside xs: the text before it and the
text after it (used to model Python str.split). -/
def findSplit (sep : Str) : Str → Option (Str × Str)
  | [] => if sep.isPrefixOf ([] : Str) then some ([], []) else none
  | x :: rest =>
    if sep.isPrefixOf (x :: rest) then some ([], (x :: rest).drop sep.length)
    else
      match findSplit sep rest with
      | none => none
      | some pq => some (x :: pq.1, pq.2)

/-- Fuelled worker for splitSep; for a non-empty separator the fuel
xs.length + 1 passed by splitSep is never exhausted (each split
consumes at least one character). -/
def splitSepF (sep : Str) : Nat → Str → List Str
  | 0, xs => [xs]
  | fuel + 1, xs =>
    match findSplit sep xs with
    | none => [xs]
    | some pq => pq.1 :: splitSepF sep fuel pq.2

/-- Python str.split(sep) for a non-empty separator: non-overlapping
leftmost-first splitting. -/
def splitSep (sep xs : Str) : List Str :=
  splitSepF sep (xs.length + 1) xs

theorem findSplit_single (c : Char) :
    ∀ xs : Str,
      (findSplit [c] xs = none → xs.takeWhile (fun d => d != c) = xs) ∧
      (∀ p q, findSplit [c] xs = some (p, q) →
        p = xs.takeWhile (fun d => d != c)) := by
  intro xs
  induction xs with
  | nil =>
    refine ⟨fun _ => rfl, fun p q h => ?_⟩
    simp [findSplit, List.isPrefixOf] at h
  | cons x rest ih =>
    by_cases hx : c = x
    · subst hx
      have hpre : ([c].isPrefixOf (c :: rest)) = true := by
        simp [List.isPrefixOf]
      refine ⟨fun h => ?_, fun p q h => ?_⟩
      · simp only [findSplit, hpre, if_true] at h
        cases h
      · simp only [findSplit, hpre, if_true] at h
        cases h
        simp [List.takeWhile, bne_self_eq_false]
    · have hpre : ([c].isPrefixOf (x :: rest)) = false := by
        simp [List.isPrefixOf]
        intro hcx
        exact absurd hcx hx
      have hxc : (x != c) = true := by
        rw [bne_iff_ne]
        exact fun hxe => hx hxe.symm
      refine ⟨fun h => ?_, fun p q h => ?_⟩
      · simp only [findSplit, hpre, Bool.false_eq_true, if_false] at h
        cases hr : findSplit [c] rest with
        | none =>
          have := ih.1 hr
          simp [List.takeWhile, hxc, this]
        | some pq => rw [hr] at h; cases h
      · simp only [findSplit, hpre, Bool.false_eq_true, if_false] at h
        cases hr : findSplit [c] rest with
        | none => rw [hr] at h; cases h
        | some pq =>
          rw [hr] at h
          cases h
          have := ih.2 pq.1 pq.2 (by rw [hr])
          simp [List.takeWhile, hxc, ← this]

theorem splitSep_single_head (c : Char) (xs : Str) :
    (splitSep [c] xs).headD [] = xs.takeWhile (fun d => d != c) := by
  have h := findSplit_single c xs
  simp only [splitSep, splitSepF]
  cases hf : findSplit [c] xs with
  | none => simp [h.1 hf]
  | some pq => simp [h.2 pq.1 pq.2 (by rw [hf])]

end TanayText

namespace TanayParse

open TanayText

/-- The text Python extracts as parts[1].split(".")[0] in
modules_to_dot.py line 22: everything in part1 up to its first dot
(str.split never returns an empty list, so index 0 is its head). -/
def depToken (part1 : Str) : Str :=
  (splitSep (".".toList) part1).headD []

/-- The dependency recorded by one source line in the module parser
(modules_to_dot.py lines 9-24): lines containing the internal
self-reference marker (three dots) are skipped, module declarations
record no dependency, otherwise the line is split on the marker
" .." and, when that yields exactly two parts, the text of the second
part up to its first dot is recorded - unless it contains a space. -/
def lineDependency (line : Str) : Option Str :=
  if inStr ("...".toList) line then none
  else if ("module ".toList).isPrefixOf line then none
  else
    match splitSep (" ..".toList) line with
    | [_, part1] =>
      let depName := depToken part1
      if spc ∈ depName then none else some depName
    | _ => none

/-- Modelled from the claim's words for C6: the recorded dependency is
the first whitespace-delimited token after the marker with its
trailing qualifier (from the first dot on) stripped. -/
def specC6Dependency (line : Str) : Option Str :=
  if inStr ("...".toList) line then none
  else if ("module ".toList).isPrefixOf line then none
  else
    match splitSep (" ..".toList) line with
    | [_, part1] =>
      some ((part1.takeWhile (fun c => c != spc)).takeWhile (fun c => c != '.'))
    | _ => none

/-- The amended reading of C6: the candidate is the text after the
(unique) marker up to the first dot, kept only when it contains no
space; a line where the marker occurs more than once records nothing. -/
def amendedDependency (line : Str) : Option Str :=
  if inStr ("...".toList) line then none
  else if ("module ".toList).isPrefixOf line then none
  else
    match splitSep (" ..".toList) line with
    | [_, part1] =>
      let depName := part1.takeWhile (fun c => c != '.')
      if spc ∈ depName then none else some depName
    | _ => none

theorem depToken_eq (p : Str) :
    depToken p = p.takeWhile (fun c => c != '.') :=
  splitSep_single_head '.' p

/-- C6, counterexample: on the line "using ..Foo: bar" (contains the
marker, no "..."), the claim's extraction (first whitespace-delimited
token after the marker, trailing qualifier stripped) yields "Foo:",
but the code records nothing: the text up to the first dot is
"Foo: bar", which contains a space, so the capture is dropped. -/
theorem c6_counterexample :
    lineDependency ("using ..Foo: bar".toList) = none ∧
    specC6Dependency ("using ..Foo: bar".toList) = some ("Foo:".toList) := by
  exact ⟨rfl, rfl⟩

/-- C6, amended: the dependency recorded from a line (when the marker
" .." occurs exactly once and the line holds no "...") is the text
after the marker up to the first dot, and only when that text contains
no space; a capture containing whitespace, or a line with several
marker occurrences, is silently skipped.  Illustrated on
"using ..Foo.Bar: baz" (records Foo) and "x ..A ..B" (records
nothing). -/
theorem c6_amended :
    (∀ line : Str, lineDependency line = amendedDependency line) ∧
    lineDependency ("using ..Foo.Bar: baz".toList) = some ("Foo".toList) ∧
    lineDependency ("x ..A ..B".toList) = none := by
  refine ⟨fun line => ?_, rfl, rfl⟩
  unfold lineDependency amendedDependency
  simp [depToken_eq]

end TanayParse

namespace TanayJet

open TanayText
open TanayDeps

/-- Python list indexing semantics: a non-negative index must be below
the length, a negative index counts from the end; out of range raises
IndexError (none). -/
def pyIdx (len : Nat) (i : Int) : Option Nat :=
  let j := if i < 0 then i + len else i
  if 0 ≤ j ∧ j < (len : Int) then some j.toNat else none

/-- Python ls[i] read. -/
def pyGet {α : Type} (ls : List α) (i : Int) : Option α :=
  match pyIdx ls.length i with
  | none => none
  | some j => ls.get? j

/-- Python ls[i] = v write. -/
def pySet {α : Type} (ls : List α) (i : Int) (v : α) : Option (List α) :=
  match pyIdx ls.length i with
  | none => none
  | some j => some (ls.set j v)

/-- One frame of the diagnostic context stack of jet.py: the raw
location line, its suppression flag and its locality flag (the three
parallel Python lists context_lines / context_disabled /
context_is_local, which are always pushed and popped together). -/
structure Frame where
  text : Str
  disabled : Bool
  isLoc : Bool
deriving DecidableEq

/-- The mutable state of jet.py.  The context stack holds the newest
frame first (Python appends and pops at the end of its lists).  Output
collects every line printed so far (lines modelled without their
trailing newline, mirroring the print(line[:-1]) calls). -/
structure JetState where
  readLines : List (Str × List Str)
  unusedLines : List (Str × List Str)
  badPaths : List Str
  context : List Frame
  contextChanged : Bool
  errors : Nat
  nonLocal : Nat
  skipped : Nat
  output : List Str
deriving DecidableEq

/-- The environment of a run: the openable files with their lines (a
path absent here fails to open), the base name of the current working
directory (used by is_local), and the results of the two globs.
os.path.relpath is modelled as the identity: the paths involved are
already relative. -/
structure JetEnv where
  fs : List (Str × List Str)
  project : Str
  srcPaths : List Str
  testPaths : List Str

/-- load_file of jet.py (lines 15-35): a path already marked bad fails
immediately; an already-read path succeeds; otherwise the file is
opened and cached in both read_lines and unused_lines, or the path is
permanently blacklisted when the open fails. -/
def load_file (env : JetEnv) (st : JetState) (path : Str) : JetState × Bool :=
  if path ∈ st.badPaths then (st, false)
  else if (alookup path st.readLines).isSome then (st, true)
  else
    match alookup path env.fs with
    | some ls =>
      ({ st with readLines := st.readLines ++ [(path, ls)],
                 unusedLines := st.unusedLines ++ [(path, ls)] }, true)
    | none => ({ st with badPaths := st.badPaths ++ [path] }, false)

/-- is_disabled of jet.py (lines 40-47): resolve whether the 1-based
line lineNo of path carries a NOJET marker; the line is first blanked
in the unused-directive copy (this indexing, like the read that
follows, raises IndexError - none - when the line number is out of
range), and a file that cannot be loaded yields "not disabled". -/
def is_disabled (env : JetEnv) (st : JetState) (path : Str) (lineNo : Nat) :
    Option (JetState × Bool) :=
  match load_file env st path with
  | (st1, false) => some (st1, false)
  | (st1, true) =>
    match alookup path st1.unusedLines with
    | none => none
    | some uls =>
      match pySet uls ((lineNo : Int) - 1) [] with
      | none => none
      | some uls2 =>
        match alookup path st1.readLines with
        | none => none
        | some rls =>
          match pyGet rls ((lineNo : Int) - 1) with
          | none => none
          | some t =>
            some ({ st1 with unusedLines := updateA st1.unusedLines path uls2 },
              inStr ("NOJET".toList) t)

/-- The value of a run of decimal digits. -/
def digitsVal (ds : Str) : Nat :=
  ds.foldl (fun a c => a * 10 + (c.toNat - 48)) 0

/-- The location pattern search of jet.py line 8, (non-space)+:(digit)+
anchored at the end of the line: the line must end in a non-empty digit
run preceded by a colon preceded by a non-empty non-whitespace run;
returns the captured path and line number.  (The backtracking regex
puts the rightmost digits-to-end colon split inside the final
non-space run, which is what this direct computation produces.) -/
def locMatch (line : Str) : Option (Str × Nat) :=
  let rev := line.reverse
  let ds := rev.takeWhile (fun c => c.isDigit)
  if ds.isEmpty then none
  else
    match rev.drop ds.length with
    | ':' :: rest =>
      let ps := rest.takeWhile (fun c => !c.isWhitespace)
      if ps.isEmpty then none else some (ps.reverse, digitsVal ds.reverse)
    | _ => none

/-- The nesting depth of a location line (jet.py line 78): the length
of the first token of the line split at single spaces; a line starting
with a space has depth 0. -/
def depthOf (line : Str) : Nat :=
  ((splitSep (" ".toList) line).headD []).length

/-- The pop loop of jet.py lines 80-83: discard stack frames while the
stack is at least depth deep; popping an empty list raises IndexError
(none), which happens exactly when depth is 0. -/
def popLoop (depth : Nat) : List Frame → Option (List Frame)
  | [] => if 0 ≥ depth then none else some []
  | f :: rest =>
    if (f :: rest).length ≥ depth then popLoop depth rest
    else some (f :: rest)

/-- An informational line passed straight through (jet.py line 66). -/
def isInfoLine (line : Str) : Bool :=
  ("[toplevel-info]".toList).isPrefixOf line

/-- A dropped noise line (jet.py line 71): blank, or mentioning the
informational marker, or the "possible errors" banner. -/
def isNoiseLine (line : Str) : Bool :=
  line.isEmpty || inStr ("[toplevel-info]".toList) line ||
    inStr ("possible errors".toList) line

/-- A message line: reaches the classification by the context stack. -/
def isMessageLine (line : Str) : Bool :=
  !isInfoLine line && !isNoiseLine line && (locMatch line).isNone

/-- One iteration of the main loop of jet.py (lines 65-106) on one
input line (with its trailing newline already stripped). -/
def stepLine (env : JetEnv) (st : JetState) (line : Str) : Option JetState :=
  if isInfoLine line then
    some { st with output := st.output ++ [line] }
  else if isNoiseLine line then
    some st
  else
    match locMatch line with
    | some pl =>
      match popLoop (depthOf line) st.context with
      | none => none
      | some ctx =>
        match is_disabled env { st with context := ctx, contextChanged := true }
            pl.1 pl.2 with
        | none => none
        | some sd =>
          some { sd.1 with
            context := ⟨line, sd.2, inStr env.project line⟩ :: sd.1.context }
    | none =>
      if st.context.any (fun f => f.disabled) then
        some { st with
          skipped := if st.contextChanged then st.skipped + 1 else st.skipped,
          contextChanged := false }
      else if st.context.any (fun f => f.isLoc) then
        some { st with
          errors := if st.contextChanged then st.errors + 1 else st.errors,
          output := st.output ++
            (if st.contextChanged then
              [] :: (st.context.map (fun f => f.text)).reverse
            else []) ++ [line],
          contextChanged := false }
      else
        some { st with
          nonLocal := if st.contextChanged then st.nonLocal + 1 else st.nonLocal,
          contextChanged := false }

/-- The main loop over the whole input stream. -/
def processAll (env : JetEnv) : JetState → List Str → Option JetState
  | st, [] => some st
  | st, l :: ls =>
    match stepLine env st l with
    | none => none
    | some st1 => processAll env st1 ls

/-- The eager loads of the two globs (jet.py lines 49-55). -/
def loadAll (env : JetEnv) : JetState → List Str → JetState
  | st, [] => st
  | st, p :: ps => loadAll env (load_file env st p).1 ps

/-- The all-zero initial state. -/
def initState : JetState :=
  { readLines := [], unusedLines := [], badPaths := [], context := [],
    contextChanged := false, errors := 0, nonLocal := 0, skipped := 0,
    output := [] }

/-- The state after the glob loads, before the stream is read. -/
def startState (env : JetEnv) : JetState :=
  loadAll env (loadAll env initState env.srcPaths) env.testPaths

/-- The unused-directive condition of jet.py line 110: the (unconsumed)
line text contains both NOJET and the vendored-path marker ".jl/". -/
def nojetUnused (t : Str) : Bool :=
  inStr ("NOJET".toList) t && inStr (".jl/".toList) t

/-- Decimal rendering of a counter, as Python str(n). -/
def natStr (n : Nat) : Str := (Nat.repr n).toList

/-- One line of the unused-directive report (jet.py line 114), for the
0-based line index i. -/
def reportLine (path : Str) (i : Nat) : Str :=
  path ++ (":".toList) ++ natStr (i + 1) ++ (": Unused NOJET directive".toList)

/-- The inner sweep loop over the enumerated lines of one cached file,
threading the running unused counter; a blank separator is printed
before the first report line of the whole sweep (unused = 0). -/
def sweepFileGo (path : Str) : Nat → Nat → List Str → List Str × Nat
  | unused, _, [] => ([], unused)
  | unused, i, t :: rest =>
    if nojetUnused t then
      let pre : List Str := if unused = 0 then [[]] else []
      let res := sweepFileGo path (unused + 1) (i + 1) rest
      (pre ++ reportLine path i :: res.1, res.2)
    else sweepFileGo path unused (i + 1) rest

/-- The outer sweep loop over all cached files in insertion order. -/
def sweepGo : Nat → List (Str × List Str) → List Str × Nat
  | unused, [] => ([], unused)
  | unused, (p, ls) :: rest =>
    let r1 := sweepFileGo p unused 0 ls
    let r2 := sweepGo r1.2 rest
    (r1.1 ++ r2.1, r2.2)

/-- The whole unused-directive sweep (jet.py lines 108-115): the lines
it prints and the final unused counter. -/
def sweepRun (items : List (Str × List Str)) : List Str × Nat :=
  sweepGo 0 items

/-- The incremental summary construction of jet.py lines 119-130; note
the separator is refreshed by the errors and skipped branches but NOT
by the non_local branch. -/
def summaryCore (e s n u : Nat) : Str :=
  let m1 : Str := "JET:".toList
  let m2 := if e > 0 then m1 ++ (" ".toList) ++ natStr e ++ (" errors".toList)
            else m1
  let s2 : Str := if e > 0 then ",".toList else []
  let m3 := if s > 0 then m2 ++ s2 ++ (" ".toList) ++ natStr s ++ (" skipped".toList)
            else m2
  let s3 : Str := if s > 0 then ",".toList else s2
  let m4 := if n > 0 then m3 ++ s3 ++ (" ".toList) ++ natStr n ++ (" non_local".toList)
            else m3
  if u > 0 then m4 ++ s3 ++ (" ".toList) ++ natStr u ++ (" unused".toList)
  else m4

/-- The printed summary line (jet.py lines 132-135). -/
def finalSummary (e s n u : Nat) : Str :=
  if e + s + n + u > 0 then summaryCore e s n u else "JET: clean!".toList

/-- The observable outcome of a run: every printed line in order, the
process exit status, and the four final counters. -/
structure JetResult where
  output : List Str
  exit : Nat
  errors : Nat
  skipped : Nat
  nonLocal : Nat
  unused : Nat
deriving DecidableEq

/-- A whole run of jet.py on an input stream: glob loads, main loop,
unused sweep, blank line, summary, exit status (sys.exit(1) iff
errors + unused > 0); none when the run dies of an uncaught error. -/
def runJet (env : JetEnv) (input : List Str) : Option JetResult :=
  match processAll env (startState env) input with
  | none => none
  | some st =>
    some
      { output := st.output ++ (sweepRun st.unusedLines).1 ++ [[]] ++
          [finalSummary st.errors st.skipped st.nonLocal
            (sweepRun st.unusedLines).2],
        exit := if st.errors + (sweepRun st.unusedLines).2 > 0 then 1 else 0,
        errors := st.errors, skipped := st.skipped, nonLocal := st.nonLocal,
        unused := (sweepRun st.unusedLines).2 }

/-- The file system of the C3 scenario: file.jl exists, has 10 lines,
and line 10 carries no NOJET directive; the project base name "file"
occurs in the location line, making it local. -/
def fsC3 : List (Str × List Str) :=
  [("file.jl".toList,
    ["line 1".toList, "line 2".toList, "line 3".toList, "line 4".toList,
     "line 5".toList, "line 6".toList, "line 7".toList, "line 8".toList,
     "line 9".toList, "line 10 clean".toList])]

def envC3 : JetEnv :=
  { fs := fsC3, project := "file".toList, srcPaths := [], testPaths := [] }

/-- C3, counterexample: on the claimed input, whose location line
'  file.jl:10' starts with two spaces, the filter does not print the
claimed output at all: the depth of that line is the length of the text
before the first space, i.e. 0, so the pop loop's condition
len(stack) >= 0 never fails and it pops from an empty list - an
uncaught IndexError.  Nothing is printed and no summary appears. -/
theorem c3_counterexample :
    runJet envC3 ["  file.jl:10".toList, "error: bad thing".toList] = none := by
  rfl

/-- C3, amended: with a location line carrying a depth-1 token, e.g.
'X file.jl:10' (real JET output encodes depth in the leading
box-drawing run, never in leading spaces), and file.jl line 10 existing
without a NOJET directive and the line local, the output is exactly a
blank line, the location line, the message, a blank line, and
'JET: 1 errors', with exit status 1. -/
theorem c3_amended :
    runJet envC3 ["X file.jl:10".toList, "error: bad thing".toList] =
      some { output := [[], "X file.jl:10".toList, "error: bad thing".toList,
                        [], "JET: 1 errors".toList],
             exit := 1, errors := 1, skipped := 0, nonLocal := 0,
             unused := 0 } := by
  rfl

def fsC5 : List (Str × List Str) :=
  [("pkg.jl/b.jl".toList, ["# NOJET here".toList, "other".toList])]

def envC5 : JetEnv :=
  { fs := fsC5, project := "proj".toList, srcPaths := [], testPaths := [] }

/-- C5, counterexample: the file pkg.jl/b.jl - whose PATH contains the
vendored marker ".jl/" - is loaded (its line 2 is consumed by a
diagnostic), and its line 1 is an unconsumed NOJET line; the claim says
it must appear in the unused-directive report, but the code tests the
marker against the line TEXT, not the path, so the report is empty and
the run ends clean. -/
theorem c5_counterexample :
    runJet envC5 ["X pkg.jl/b.jl:2".toList] =
      some { output := [[], "JET: clean!".toList], exit := 0, errors := 0,
             skipped := 0, nonLocal := 0, unused := 0 } ∧
    inStr (".jl/".toList) ("pkg.jl/b.jl".toList) = true ∧
    inStr ("NOJET".toList) ("# NOJET here".toList) = true ∧
    reportLine ("pkg.jl/b.jl".toList) 0 ∉ [([] : Str), "JET: clean!".toList] := by
  exact ⟨rfl, rfl, rfl, by decide⟩

def fsC7 : List (Str × List Str) :=
  [("src/a.jl".toList, ["# NOJET see pkg.jl/ note".toList])]

def envC7 : JetEnv :=
  { fs := fsC7, project := "proj".toList, srcPaths := ["src/a.jl".toList],
    testPaths := [] }

def inputC7 : List Str := ["X ext.jl:1".toList, "some problem".toList]

def resC7 : JetResult :=
  { output := [[], reportLine ("src/a.jl".toList) 0, [],
               "JET: 1 non_local 1 unused".toList],
    exit := 1, errors := 0, skipped := 0, nonLocal := 1, unused := 1 }

/-- C7, counterexample: a run whose only positive counters are
non_local and unused ends with the summary line
'JET: 1 non_local 1 unused' - no comma between the two entries, because
the non_local branch does not refresh the separator - while the claim
requires 'JET: 1 non_local, 1 unused'. -/
theorem c7_counterexample :
    runJet envC7 inputC7 = some resC7 ∧
    resC7.output.getLast? = some ("JET: 1 non_local 1 unused".toList) ∧
    ("JET: 1 non_local 1 unused".toList : Str) ≠
      "JET: 1 non_local, 1 unused".toList := by
  exact ⟨rfl, rfl, by decide⟩

def envC9 : JetEnv :=
  { fs := [("file.jl".toList, ["just one line".toList])],
    project := "proj".toList, srcPaths := [], testPaths := [] }

/-- C9, counterexample: the claim says the filter never aborts and in
particular that a referenced line number with no matching source line
degrades to "not suppressed"; but on a location line referencing line
99 of a 1-line file, is_disabled indexes the cached line list out of
range - an uncaught IndexError - and the run dies. -/
theorem c9_counterexample :
    runJet envC9 ["X file.jl:99".toList] = none := by
  rfl

def fsC8 : List (Str × List Str) :=
  [("s.jl".toList, ["x NOJET y".toList])]

def envC8 : JetEnv :=
  { fs := fsC8, project := "proj".toList, srcPaths := [], testPaths := [] }

def inputC8 : List Str :=
  ["X s.jl:1".toList, "m1".toList, "Y t.jl:1".toList, "m2".toList]

def resC8 : JetResult :=
  { output := [[], "JET: 1 skipped, 1 non_local".toList], exit := 0,
    errors := 0, skipped := 1, nonLocal := 1, unused := 0 }

/-- C8: for every completed run the exit status is non-zero iff
errors + unused > 0 at the end of the run; and concretely, a run whose
only positive counters are skipped and non_local exits with status 0. -/
theorem c8_exit_status :
    (∀ env input r, runJet env input = some r →
      (r.exit ≠ 0 ↔ 0 < r.errors + r.unused)) ∧
    runJet envC8 inputC8 = some resC8 ∧
    resC8.exit = 0 ∧ resC8.skipped = 1 ∧ resC8.nonLocal = 1 := by
  refine ⟨?_, rfl, rfl, rfl, rfl⟩
  intro env input r h
  unfold runJet at h
  cases hp : processAll env (startState env) input with
  | none => rw [hp] at h; cases h
  | some st =>
    rw [hp] at h
    cases h
    by_cases hpos : st.errors + (sweepRun st.unusedLines).2 > 0
    · simp [hpos]
    · simp [hpos]

/-- Witness for the universally quantified half of C8, at the concrete
run of resC8. -/
theorem c8_exit_status_witness :
    runJet envC8 inputC8 = some resC8 ∧
    (resC8.exit ≠ 0 ↔ 0 < resC8.errors + resC8.unused) :=
  ⟨rfl, c8_exit_status.1 envC8 inputC8 resC8 rfl⟩

/-- The summary format stated by the amended C7: each counter appears
iff positive; a comma precedes the skipped entry iff errors is
positive, and precedes the non_local and unused entries iff errors or
skipped is positive (in particular no comma separates non_local from
unused when errors and skipped are both zero); all-zero counters give
"JET: clean!". -/
def specSummary (e s n u : Nat) : Str :=
  if e + s + n + u = 0 then "JET: clean!".toList
  else
    ("JET:".toList) ++
      (if e > 0 then (" ".toList) ++ natStr e ++ (" errors".toList) else []) ++
      (if s > 0 then
        (if e > 0 then ",".toList else []) ++ (" ".toList) ++ natStr s ++
          (" skipped".toList)
      else []) ++
      (if n > 0 then
        (if e > 0 ∨ s > 0 then ",".toList else []) ++ (" ".toList) ++
          natStr n ++ (" non_local".toList)
      else []) ++
      (if u > 0 then
        (if e > 0 ∨ s > 0 then ",".toList else []) ++ (" ".toList) ++
          natStr u ++ (" unused".toList)
      else [])

/-- C7, amended: the last printed line of every completed run is the
summary built from the final counters, and that summary follows the
format of specSummary: entries iff positive, comma before skipped iff
errors > 0, comma before non_local and unused iff errors or skipped
positive (so no comma between non_local and unused when both earlier
counters are zero), "JET: clean!" when all four are zero. -/
theorem c7_summary_amended :
    (∀ env input r, runJet env input = some r →
      r.output.getLast? =
        some (finalSummary r.errors r.skipped r.nonLocal r.unused)) ∧
    (∀ e s n u, finalSummary e s n u = specSummary e s n u) := by
  constructor
  · intro env input r h
    unfold runJet at h
    cases hp : processAll env (startState env) input with
    | none => rw [hp] at h; cases h
    | some st =>
      rw [hp] at h
      cases h
      exact List.getLast?_concat _
  · intro e s n u
    unfold finalSummary specSummary summaryCore
    rcases Nat.eq_zero_or_pos e with he | he <;>
      rcases Nat.eq_zero_or_pos s with hs | hs <;>
        rcases Nat.eq_zero_or_pos n with hn | hn <;>
          rcases Nat.eq_zero_or_pos u with hu | hu <;>
            simp_all [Nat.pos_iff_ne_zero, List.append_assoc]

/-- Witness for C7 at the concrete run of resC7 (counters 0, 0, 1, 1)
and at the counter values (0, 0, 1, 1). -/
theorem c7_summary_amended_witness :
    runJet envC7 inputC7 = some resC7 ∧
    (resC7.output.getLast? =
      some (finalSummary resC7.errors resC7.skipped resC7.nonLocal
        resC7.unused)) ∧
    finalSummary 0 0 1 1 = specSummary 0 0 1 1 :=
  ⟨rfl, c7_summary_amended.1 envC7 inputC7 resC7 rfl,
    c7_summary_amended.2 0 0 1 1⟩

/-- The three classification counters as one tuple:
(skipped, errors, non_local). -/
def counterTriple (st : JetState) : Nat × Nat × Nat :=
  (st.skipped, st.errors, st.nonLocal)

/-- What one message line does to the state, per the claim C4: the
one-shot context-changed flag is cleared; with no pending context
change no counter moves; with a pending change exactly one counter is
incremented, chosen by priority - skipped if any stack frame is
suppressed, else errors (printing a blank line, the full context chain
and the message) if any frame is local, else non_local (the skipped
and non_local branches print nothing). -/
def MessageSpec (st st' : JetState) (line : Str) : Prop :=
  st'.contextChanged = false ∧
  (st.contextChanged = false → counterTriple st' = counterTriple st) ∧
  (st.contextChanged = true →
    (st.context.any (fun f => f.disabled) = true →
      counterTriple st' = (st.skipped + 1, st.errors, st.nonLocal) ∧
      st'.output = st.output) ∧
    (st.context.any (fun f => f.disabled) = false →
      st.context.any (fun f => f.isLoc) = true →
      counterTriple st' = (st.skipped, st.errors + 1, st.nonLocal) ∧
      st'.output = st.output ++
        ([] :: (st.context.map (fun f => f.text)).reverse) ++ [line]) ∧
    (st.context.any (fun f => f.disabled) = false →
      st.context.any (fun f => f.isLoc) = false →
      counterTriple st' = (st.skipped, st.errors, st.nonLocal + 1) ∧
      st'.output = st.output))

/-- What every non-message line (informational, noise, location) does
to the counters: nothing. -/
def NonMessageSpec (st st' : JetState) : Prop :=
  counterTriple st' = counterTriple st

theorem load_file_counters (env : JetEnv) (st : JetState) (p : Str) :
    counterTriple (load_file env st p).1 = counterTriple st := by
  unfold load_file
  split
  · rfl
  · split
    · rfl
    · split <;> rfl

theorem is_disabled_counters (env : JetEnv) (st : JetState) (p : Str)
    (n : Nat) (sd : JetState × Bool) (h : is_disabled env st p n = some sd) :
    counterTriple sd.1 = counterTriple st := by
  unfold is_disabled at h
  have hl := load_file_counters env st p
  split at h
  · rename_i heq
    cases h
    rw [heq] at hl
    exact hl
  · rename_i st1 heq
    rw [heq] at hl
    split at h
    · cases h
    · split at h
      · cases h
      · split at h
        · cases h
        · split at h
          · cases h
          · cases h
            exact hl

/-- C4: characterization of one step of the main loop.  A message line
satisfies MessageSpec (one counter increment per pending context
change, by the suppressed > local > non-local priority, cleared
afterwards); any other line leaves the three counters untouched, so a
context followed by no message line increments nothing. -/
theorem c4_message_classification (env : JetEnv) (st : JetState) (line : Str)
    (st' : JetState) (h : stepLine env st line = some st') :
    (isMessageLine line = true → MessageSpec st st' line) ∧
    (isMessageLine line = false → NonMessageSpec st st') := by
  unfold stepLine at h
  split at h
  · rename_i hinfo
    cases h
    refine ⟨fun hmsg => ?_, fun _ => rfl⟩
    simp [isMessageLine, hinfo] at hmsg
  · rename_i hinfo
    split at h
    · rename_i hnoise
      cases h
      refine ⟨fun hmsg => ?_, fun _ => rfl⟩
      simp [isMessageLine, hnoise] at hmsg
    · rename_i hnoise
      split at h
      · rename_i pl hloc
        constructor
        · intro hmsg
          simp [isMessageLine, hloc] at hmsg
        · intro _
          split at h
          · cases h
          · rename_i ctx hpop
            split at h
            · cases h
            · rename_i sd hdis
              cases h
              unfold NonMessageSpec
              exact is_disabled_counters env
                { st with context := ctx, contextChanged := true } pl.1 pl.2
                sd hdis
      · rename_i hloc
        have hinfo2 : isInfoLine line = false := Bool.eq_false_iff.mpr hinfo
        have hnoise2 : isNoiseLine line = false := Bool.eq_false_iff.mpr hnoise
        have hmsg : isMessageLine line = true := by
          simp [isMessageLine, hinfo2, hnoise2, hloc]
        refine ⟨fun _ => ?_, fun hne => by rw [hmsg] at hne; cases hne⟩
        split at h
        · rename_i hdisab
          cases h
          refine ⟨rfl, fun hch => by simp [counterTriple, hch], fun hch => ?_⟩
          refine ⟨fun _ => ⟨by simp [counterTriple, hch], rfl⟩,
            fun hd _ => ?_, fun hd _ => ?_⟩ <;>
              (rw [hd] at hdisab; cases hdisab)
        · rename_i hdisab
          have hdisab2 : st.context.any (fun f => f.disabled) = false :=
            Bool.eq_false_iff.mpr hdisab
          split at h
          · rename_i hlocal
            cases h
            refine ⟨rfl, fun hch => by simp [counterTriple, hch], fun hch => ?_⟩
            refine ⟨fun hd => ?_,
              fun _ _ => ⟨by simp [counterTriple, hch], by simp [hch]⟩,
              fun _ hle => ?_⟩
            · rw [hd] at hdisab2; cases hdisab2
            · rw [hle] at hlocal; cases hlocal
          · rename_i hlocal
            have hlocal2 : st.context.any (fun f => f.isLoc) = false :=
              Bool.eq_false_iff.mpr hlocal
            cases h
            refine ⟨rfl, fun hch => by simp [counterTriple, hch], fun hch => ?_⟩
            refine ⟨fun hd => ?_, fun _ hle => ?_,
              fun _ _ => ⟨by simp [counterTriple, hch], rfl⟩⟩
            · rw [hd] at hdisab2; cases hdisab2
            · rw [hle] at hlocal2; cases hlocal2

def envW : JetEnv :=
  { fs := [], project := "proj".toList, srcPaths := [], testPaths := [] }

def stW : JetState :=
  { readLines := [], unusedLines := [], badPaths := [],
    context := [{ text := "L".toList, disabled := false, isLoc := true }],
    contextChanged := true, errors := 0, nonLocal := 0, skipped := 0,
    output := [] }

def stW' : JetState :=
  { readLines := [], unusedLines := [], badPaths := [],
    context := [{ text := "L".toList, disabled := false, isLoc := true }],
    contextChanged := false, errors := 1, nonLocal := 0, skipped := 0,
    output := [[], "L".toList, "boom".toList] }

/-- Witness for C4: a concrete message line arriving on a freshly
changed local context increments errors once and replays the chain. -/
theorem c4_message_classification_witness :
    stepLine envW stW ("boom".toList) = some stW' ∧
    isMessageLine ("boom".toList) = true ∧
    MessageSpec stW stW' ("boom".toList) :=
  ⟨rfl, rfl,
    (c4_message_classification envW stW ("boom".toList) stW' rfl).1 rfl⟩

theorem load_file_empty (env : JetEnv) (st : JetState) (p : Str)
    (hfs : env.fs = []) (hrl : st.readLines = []) :
    (load_file env st p).1.readLines = [] ∧ (load_file env st p).2 = false := by
  unfold load_file
  split
  · exact ⟨hrl, rfl⟩
  · split
    · rename_i hsome
      rw [hrl] at hsome
      simp [alookup] at hsome
    · split
      · rename_i ls hlk
        rw [hfs] at hlk
        simp [alookup] at hlk
      · exact ⟨hrl, rfl⟩

theorem is_disabled_empty (env : JetEnv) (st : JetState) (p : Str) (n : Nat)
    (hfs : env.fs = []) (hrl : st.readLines = []) :
    is_disabled env st p n = some ((load_file env st p).1, false) ∧
    (load_file env st p).1.readLines = [] := by
  have h := load_file_empty env st p hfs hrl
  constructor
  · unfold is_disabled
    split
    · rename_i st1 heq
      rw [heq]
    · rename_i st1 heq
      rw [heq] at h
      simp at h
  · exact h.1

theorem popLoop_ne_zero (depth : Nat) (hd : depth ≠ 0) :
    ∀ l : List Frame, ∃ ctx, popLoop depth l = some ctx := by
  intro l
  induction l with
  | nil =>
    refine ⟨[], ?_⟩
    unfold popLoop
    rw [if_neg ?_]
    omega
  | cons f rest ih =>
    unfold popLoop
    by_cases hlen : (f :: rest).length ≥ depth
    · rw [if_pos hlen]; exact ih
    · rw [if_neg hlen]; exact ⟨_, rfl⟩

theorem stepLine_safe (env : JetEnv) (st : JetState) (line : Str)
    (hfs : env.fs = []) (hrl : st.readLines = [])
    (hdep : depthOf line = 0 → locMatch line = none) :
    ∃ st', stepLine env st line = some st' ∧ st'.readLines = [] := by
  unfold stepLine
  split
  · exact ⟨_, rfl, hrl⟩
  · split
    · exact ⟨_, rfl, hrl⟩
    · split
      · rename_i pl hloc
        have hd0 : depthOf line ≠ 0 := by
          intro h0
          rw [hdep h0] at hloc
          cases hloc
        obtain ⟨ctx, hctx⟩ := popLoop_ne_zero (depthOf line) hd0 st.context
        have hdis := is_disabled_empty env
          { st with context := ctx, contextChanged := true } pl.1 pl.2 hfs hrl
        simp only [hctx, hdis.1]
        exact ⟨_, rfl, hdis.2⟩
      · split
        · exact ⟨_, rfl, hrl⟩
        · split
          · exact ⟨_, rfl, hrl⟩
          · exact ⟨_, rfl, hrl⟩

theorem processAll_safe (env : JetEnv) (hfs : env.fs = []) :
    ∀ (input : List Str) (st : JetState), st.readLines = [] →
      (∀ line ∈ input, depthOf line = 0 → locMatch line = none) →
      ∃ st2, processAll env st input = some st2 := by
  intro input
  induction input with
  | nil => intro st _ _; exact ⟨st, rfl⟩
  | cons l ls ih =>
    intro st hrl hdep
    obtain ⟨st1, hstep, hrl1⟩ :=
      stepLine_safe env st l hfs hrl (hdep l (by simp))
    unfold processAll
    simp only [hstep]
    exact ih st1 hrl1 (fun line hl => hdep line (by simp [hl]))

theorem loadAll_empty (env : JetEnv) (hfs : env.fs = []) :
    ∀ (ps : List Str) (st : JetState), st.readLines = [] →
      (loadAll env st ps).readLines = [] := by
  intro ps
  induction ps with
  | nil => intro st h; exact h
  | cons p ps ih =>
    intro st h
    unfold loadAll
    exact ih _ (load_file_empty env st p hfs h).1

/-- An environment in which no referenced file can be opened. -/
def emptyEnv (proj : Str) (src test : List Str) : JetEnv :=
  { fs := [], project := proj, srcPaths := src, testPaths := test }

/-- C9, amended: the filter never aborts because of files that cannot
be opened - with no openable file at all, every directive lookup
degrades to "not suppressed" via the permanent blacklist and the run
completes, for any input whose location lines carry a non-empty depth
token.  (What does abort the run, per the counterexample, is an
out-of-range referenced line number in a file that DID open - an
uncaught IndexError - or a location line whose first space-delimited
token is empty.) -/
theorem c9_open_failure_graceful (proj : Str) (src test input : List Str)
    (hdep : ∀ line ∈ input, depthOf line = 0 → locMatch line = none) :
    ∃ r, runJet (emptyEnv proj src test) input = some r := by
  have hstart : (startState (emptyEnv proj src test)).readLines = [] := by
    unfold startState
    exact loadAll_empty _ rfl _ _ (loadAll_empty _ rfl _ _ rfl)
  obtain ⟨st2, hp⟩ :=
    processAll_safe (emptyEnv proj src test) rfl input _ hstart hdep
  unfold runJet
  simp only [hp]
  exact ⟨_, rfl⟩

def inputC9w : List Str := ["X ghost.jl:5".toList, "oops".toList]

/-- Witness for the amended C9 at a concrete stream referencing a file
that cannot be opened. -/
theorem c9_open_failure_graceful_witness :
    (∀ line ∈ inputC9w, depthOf line = 0 → locMatch line = none) ∧
    ∃ r, runJet (emptyEnv ("proj".toList) [] []) inputC9w = some r :=
  ⟨by decide, c9_open_failure_graceful ("proj".toList) [] [] inputC9w
    (by decide)⟩

/-- The qualifying (path, 0-based line index) occurrences of one
cached file, in line order. -/
def filePairs (p : Str) : Nat → List Str → List (Str × Nat)
  | _, [] => []
  | i, t :: rest =>
    if nojetUnused t then (p, i) :: filePairs p (i + 1) rest
    else filePairs p (i + 1) rest

/-- All qualifying occurrences over all cached files, in scan order. -/
def allPairs : List (Str × List Str) → List (Str × Nat)
  | [] => []
  | (p, ls) :: rest => filePairs p 0 ls ++ allPairs rest

theorem sweepFileGo_snd (p : Str) :
    ∀ (ls : List Str) (i c : Nat),
      (sweepFileGo p c i ls).2 = c + (filePairs p i ls).length := by
  intro ls
  induction ls with
  | nil => intro i c; simp [sweepFileGo, filePairs]
  | cons t rest ih =>
    intro i c
    by_cases hq : nojetUnused t = true
    · simp only [sweepFileGo, filePairs, hq, if_true]
      rw [ih (i + 1) (c + 1)]
      simp [Nat.add_comm, Nat.add_assoc, Nat.add_left_comm]
    · simp only [sweepFileGo, filePairs, hq, Bool.false_eq_true, if_false]
      exact ih (i + 1) c

theorem sweepFileGo_fst (p : Str) :
    ∀ (ls : List Str) (i c : Nat),
      (sweepFileGo p c i ls).1 =
        (if c = 0 ∧ filePairs p i ls ≠ [] then [[]] else []) ++
          (filePairs p i ls).map (fun q => reportLine q.1 q.2) := by
  intro ls
  induction ls with
  | nil => intro i c; simp [sweepFileGo, filePairs]
  | cons t rest ih =>
    intro i c
    by_cases hq : nojetUnused t = true
    · by_cases hc : c = 0 <;>
        simp [sweepFileGo, filePairs, hq, ih, hc]
    · simp only [sweepFileGo, filePairs, hq, Bool.false_eq_true, if_false]
      exact ih (i + 1) c

theorem sweepGo_snd :
    ∀ (items : List (Str × List Str)) (c : Nat),
      (sweepGo c items).2 = c + (allPairs items).length := by
  intro items
  induction items with
  | nil => intro c; simp [sweepGo, allPairs]
  | cons pls rest ih =>
    intro c
    obtain ⟨p, ls⟩ := pls
    simp only [sweepGo, allPairs]
    rw [ih, sweepFileGo_snd]
    simp [Nat.add_assoc, List.length_append]

theorem sweepGo_fst :
    ∀ (items : List (Str × List Str)) (c : Nat),
      (sweepGo c items).1 =
        (if c = 0 ∧ allPairs items ≠ [] then [[]] else []) ++
          (allPairs items).map (fun q => reportLine q.1 q.2) := by
  intro items
  induction items with
  | nil => intro c; simp [sweepGo, allPairs]
  | cons pls rest ih =>
    intro c
    obtain ⟨p, ls⟩ := pls
    simp only [sweepGo, allPairs]
    rw [sweepFileGo_fst, sweepFileGo_snd, ih]
    by_cases hP1 : filePairs p 0 ls = []
    · simp [hP1]
    · have hlen : (filePairs p 0 ls).length ≠ 0 := by
        simpa [List.length_eq_zero] using hP1
      have hc2 : ¬(c + (filePairs p 0 ls).length = 0) := by omega
      by_cases hc : c = 0 <;> simp [hP1, hc, hc2, List.map_append]

/-- C5, amended: the unused-directive sweep reports exactly the NOJET
lines whose own (unconsumed) text contains the vendored marker ".jl/"
(the path is not consulted): its output is one report line per
qualifying (file, line) occurrence, in scan order, preceded by a single
blank separator line exactly when at least one occurrence exists, and
the unused counter equals the number of occurrences.  (A line consumed
by a directive lookup was blanked in the swept copy and cannot
qualify.) -/
theorem c5_sweep_characterization :
    ∀ items : List (Str × List Str),
      sweepRun items =
        ((if allPairs items = [] then [] else [[]]) ++
          (allPairs items).map (fun q => reportLine q.1 q.2),
         (allPairs items).length) := by
  intro items
  unfold sweepRun
  rw [Prod.ext_iff]
  constructor
  · rw [sweepGo_fst]
    by_cases hP : allPairs items = [] <;> simp [hP]
  · rw [sweepGo_snd]
    simp

end TanayJet
